import Mathlib

/-!
Formal model of src/app.py (SmartAcid business-case calculator).

The file embeds, over exact rational arithmetic, the additive-capped model of
the app: the three allocation policies (lines 48-89), the main pipeline
(lines 160-205) and the per-component benefit computation (lines 207-215).
All definitions follow the source line by line; floats are modelled as ℚ.
-/

/-- Allocation rule selected in the sidebar (app.py line 135). -/
inductive Rule
  | secuencial
  | proporcional
  | ponderada
  deriving DecidableEq

/-- Loop body of allocate_sequential (app.py lines 54-62): while excess
remains, the component is credited max(d - remaining, 0) and the remaining
excess becomes max(remaining - d, 0); once the excess is exhausted the
remaining components pass through unchanged. -/
def seqGo : List ℚ → ℚ → List ℚ
  | [], _ => []
  | d :: ds, rem =>
    if rem ≤ 0 then d :: seqGo ds rem
    else max (d - rem) 0 :: seqGo ds (max (rem - d) 0)

/-- app.py lines 48-63: sequential clawback of the excess, components in
order C1..C4. -/
def allocate_sequential (deltas : List ℚ) (limit_excess : ℚ) : List ℚ :=
  seqGo deltas (max limit_excess 0)

/-- app.py lines 65-73: every delta is scaled by max(1 - excess/S, 0),
guarded by S <= 0 or excess <= 0 (then the list is returned unchanged). -/
def allocate_proportional (deltas : List ℚ) (limit_excess : ℚ) : List ℚ :=
  let S := deltas.sum
  if S ≤ 0 ∨ limit_excess ≤ 0 then deltas
  else
    let factor := max (1 - limit_excess / S) 0
    deltas.map (fun d => max (d * factor) 0)

/-- app.py lines 75-89: clawback proportional to weight*delta, normalized by
S = sum of the weight*delta products, guarded by S <= 0 or excess <= 0. -/
def allocate_weighted (deltas weights : List ℚ) (limit_excess : ℚ) : List ℚ :=
  let wd := (weights.zip deltas).map (fun x => x.1 * x.2)
  let S := wd.sum
  if S ≤ 0 ∨ limit_excess ≤ 0 then deltas
  else (deltas.zip wd).map (fun x => max (x.1 - limit_excess * (x.2 / S)) 0)

/-- The sidebar inputs of app.py (lines 94-144): operating parameters,
prices, technical limits, activation switches, per-component absolute
deltas, allocation rule and weights. -/
structure Params where
  T_Mt : ℚ
  G_pct : ℚ
  R0_pct : ℚ
  A0_kgpt : ℚ
  P_Cu : ℚ
  P_Acid : ℚ
  Rmax_pct : ℚ
  Amin_kgpt : ℚ
  C1 : Bool
  C2 : Bool
  C3 : Bool
  C4 : Bool
  dR_C1 : ℚ
  dR_C2 : ℚ
  dR_C3 : ℚ
  dR_C4 : ℚ
  dA_C1 : ℚ
  dA_C2 : ℚ
  dA_C3 : ℚ
  dA_C4 : ℚ
  rule : Rule
  w1 : ℚ
  w2 : ℚ
  w3 : ℚ
  w4 : ℚ

/-- app.py line 162: tonnes treated per year. -/
def T (p : Params) : ℚ := p.T_Mt * 1000000

/-- app.py line 163: copper in feed (t/a). -/
def Cu_in_tpy (p : Params) : ℚ := T p * (p.G_pct / 100)

/-- app.py line 166. -/
def dR_list (p : Params) : List ℚ := [p.dR_C1, p.dR_C2, p.dR_C3, p.dR_C4]

/-- app.py line 167. -/
def dA_list (p : Params) : List ℚ := [p.dA_C1, p.dA_C2, p.dA_C3, p.dA_C4]

/-- app.py lines 118 and 168: activation mask in order C1..C4. -/
def active_mask (p : Params) : List Bool := [p.C1, p.C2, p.C3, p.C4]

/-- app.py line 144 (defaults line 137): weights in order C1..C4. -/
def weights_list (p : Params) : List ℚ := [p.w1, p.w2, p.w3, p.w4]

/-- app.py lines 170-171: switched-off components contribute 0. -/
def applySwitches (ds : List ℚ) (mask : List Bool) : List ℚ :=
  (ds.zip mask).map (fun x => if x.2 then x.1 else 0)

/-- app.py line 171. -/
def dR_active (p : Params) : List ℚ := applySwitches (dR_list p) (active_mask p)

/-- app.py line 172. -/
def dA_active (p : Params) : List ℚ := applySwitches (dA_list p) (active_mask p)

/-- app.py line 175: raw final recovery. -/
def R_raw (p : Params) : ℚ := p.R0_pct + (dR_active p).sum

/-- app.py line 176: recovery excess over the ceiling. -/
def excess_R (p : Params) : ℚ := max (R_raw p - p.Rmax_pct) 0

/-- app.py lines 177-182: credited recovery deltas after the selected rule. -/
def dR_accredited (p : Params) : List ℚ :=
  match p.rule with
  | Rule.secuencial => allocate_sequential (dR_active p) (excess_R p)
  | Rule.proporcional => allocate_proportional (dR_active p) (excess_R p)
  | Rule.ponderada => allocate_weighted (dR_active p) (weights_list p) (excess_R p)

/-- app.py line 183. -/
def R_final (p : Params) : ℚ := p.R0_pct + (dR_accredited p).sum

/-- app.py line 186: raw final acid. -/
def A_raw (p : Params) : ℚ := p.A0_kgpt - (dA_active p).sum

/-- app.py line 187: acid-saving excess below the floor. -/
def excess_A (p : Params) : ℚ := max (p.Amin_kgpt - A_raw p) 0

/-- app.py lines 188-193: credited acid-saving deltas after the selected rule. -/
def dA_accredited (p : Params) : List ℚ :=
  match p.rule with
  | Rule.secuencial => allocate_sequential (dA_active p) (excess_A p)
  | Rule.proporcional => allocate_proportional (dA_active p) (excess_A p)
  | Rule.ponderada => allocate_weighted (dA_active p) (weights_list p) (excess_A p)

/-- app.py line 194. -/
def A_final (p : Params) : ℚ := p.A0_kgpt - (dA_accredited p).sum

/-- app.py line 197. -/
def dR_total_pts (p : Params) : ℚ := R_final p - p.R0_pct

/-- app.py line 198. -/
def dA_total_kgpt (p : Params) : ℚ := p.A0_kgpt - A_final p

/-- app.py line 199. -/
def dCu_tpy (p : Params) : ℚ := Cu_in_tpy p * (dR_total_pts p / 100)

/-- app.py line 200. -/
def acid_saved_tpy (p : Params) : ℚ := T p * (dA_total_kgpt p / 1000)

/-- app.py line 203. -/
def B_Cu (p : Params) : ℚ := dCu_tpy p * p.P_Cu

/-- app.py line 204. -/
def B_Acid (p : Params) : ℚ := acid_saved_tpy p * p.P_Acid

/-- app.py line 205: aggregate annual benefit. -/
def B_total (p : Params) : ℚ := B_Cu p + B_Acid p

/-- app.py lines 210-214: benefit of one component from its credited deltas. -/
def B_comp (p : Params) (dR_i dA_i : ℚ) : ℚ :=
  Cu_in_tpy p * (dR_i / 100) * p.P_Cu + T p * (dA_i / 1000) * p.P_Acid

/-- app.py lines 208-215: per-component benefits in order C1..C4. -/
def B_by (p : Params) : List ℚ :=
  ((dR_accredited p).zip (dA_accredited p)).map (fun x => B_comp p x.1 x.2)

/-- The paragraph-8 scenario of the spec: defaults of the app sidebar with the
Proportional rule. -/
def scenarioParams : Params :=
  ⟨10, 1/2, 60, 35, 9000, 120, 75, 20,
   true, true, true, true,
   1/2, 6/5, 7/10, 3,
   7/10, 7/5, 11/10, 33/10,
   Rule.proporcional, 1, 1, 1, 1⟩

/-- The breach scenario of the spec: ceiling 63 instead of 75 and the
Sequential rule. -/
def breachParams : Params :=
  ⟨10, 1/2, 60, 35, 9000, 120, 63, 20,
   true, true, true, true,
   1/2, 6/5, 7/10, 3,
   7/10, 7/5, 11/10, 33/10,
   Rule.secuencial, 1, 1, 1, 1⟩

/-- A configuration whose baseline recovery 80 already sits above the
ceiling 75 (valid per the spec), with the Sequential rule. -/
def ceilParams : Params :=
  ⟨10, 1/2, 80, 35, 9000, 120, 75, 20,
   true, true, true, true,
   1/2, 6/5, 7/10, 3,
   7/10, 7/5, 11/10, 33/10,
   Rule.secuencial, 1, 1, 1, 1⟩

/-- The sidebar scenario with component C3 switched off. -/
def inactiveParams : Params :=
  ⟨10, 1/2, 60, 35, 9000, 120, 75, 20,
   true, true, false, true,
   1/2, 6/5, 7/10, 3,
   7/10, 7/5, 11/10, 33/10,
   Rule.secuencial, 1, 1, 1, 1⟩

/-- All four recovery deltas of the parameter set are non-negative (the
sidebar number inputs of app.py lines 124-127 enforce a lower bound of 0). -/
def nonnegR (p : Params) : Prop :=
  0 ≤ p.dR_C1 ∧ 0 ≤ p.dR_C2 ∧ 0 ≤ p.dR_C3 ∧ 0 ≤ p.dR_C4

/-- All four acid deltas of the parameter set are non-negative (app.py
lines 129-132 enforce a lower bound of 0). -/
def nonnegA (p : Params) : Prop :=
  0 ≤ p.dA_C1 ∧ 0 ≤ p.dA_C2 ∧ 0 ≤ p.dA_C3 ∧ 0 ≤ p.dA_C4

/-- A list of non-negative rationals summing to zero is all zeros. -/
lemma sum_zero_all_zero : ∀ (l : List ℚ), (∀ x ∈ l, 0 ≤ x) → l.sum = 0 →
    ∀ x ∈ l, x = 0
  | [], _, _, x, hx => by cases hx
  | a :: l, hl, hs, x, hx => by
    have ha : 0 ≤ a := hl a (List.mem_cons_self a l)
    have hl' : ∀ x ∈ l, 0 ≤ x := fun x hx => hl x (List.mem_cons_of_mem a hx)
    have hls : 0 ≤ l.sum := List.sum_nonneg hl'
    rw [List.sum_cons] at hs
    have ha0 : a = 0 := by linarith
    have hs0 : l.sum = 0 := by linarith
    rcases List.mem_cons.mp hx with h | h
    · rw [h]; exact ha0
    · exact sum_zero_all_zero l hl' hs0 x h

/-- Scaling every element of a list scales its sum. -/
lemma sum_map_mul : ∀ (l : List ℚ) (c : ℚ), (l.map (fun d => d * c)).sum = l.sum * c
  | [], c => by simp
  | a :: l, c => by
    simp [sum_map_mul l c]
    ring

/-- With remaining excess 0 the sequential loop is the identity. -/
lemma seqGo_zero : ∀ ds : List ℚ, seqGo ds 0 = ds
  | [] => rfl
  | d :: ds => by simp [seqGo, seqGo_zero ds]

/-- The sequential loop keeps the length of the list. -/
lemma seqGo_length : ∀ (ds : List ℚ) (rem : ℚ), (seqGo ds rem).length = ds.length
  | [], _ => rfl
  | _ :: ds, rem => by
    by_cases h : rem ≤ 0 <;> simp [seqGo, h, seqGo_length ds]

/-- Sum credited by the sequential loop: the whole list sum minus the part of
the remaining excess that the list can absorb. -/
lemma seqGo_sum : ∀ (ds : List ℚ) (rem : ℚ), 0 ≤ rem → (∀ d ∈ ds, 0 ≤ d) →
    (seqGo ds rem).sum = ds.sum - min rem ds.sum
  | [], rem, hrem, _ => by simp [seqGo, min_eq_right hrem]
  | d :: ds, rem, hrem, hds => by
    have hd : 0 ≤ d := hds d (List.mem_cons_self d ds)
    have hds' : ∀ x ∈ ds, 0 ≤ x := fun x hx => hds x (List.mem_cons_of_mem d hx)
    have hsum : 0 ≤ ds.sum := List.sum_nonneg hds'
    by_cases h : rem ≤ 0
    · have hrem0 : rem = 0 := le_antisymm h hrem
      subst hrem0
      rw [seqGo_zero (d :: ds), List.sum_cons, min_eq_left (by linarith)]
      ring
    · have h' : 0 < rem := lt_of_not_le h
      simp only [seqGo, if_neg h, List.sum_cons,
        seqGo_sum ds (max (rem - d) 0) (le_max_right _ _) hds']
      simp only [max_def, min_def]
      split_ifs <;> linarith

/-- Every credited value of the sequential loop lies between 0 and its raw
input value. -/
lemma seqGo_bounds : ∀ (ds : List ℚ) (rem : ℚ), 0 ≤ rem → (∀ d ∈ ds, 0 ≤ d) →
    List.Forall₂ (fun c d => 0 ≤ c ∧ c ≤ d) (seqGo ds rem) ds
  | [], _, _, _ => List.Forall₂.nil
  | d :: ds, rem, hrem, hds => by
    have hd : 0 ≤ d := hds d (List.mem_cons_self d ds)
    have hds' : ∀ x ∈ ds, 0 ≤ x := fun x hx => hds x (List.mem_cons_of_mem d hx)
    by_cases h : rem ≤ 0
    · simp only [seqGo, if_pos h]
      exact List.Forall₂.cons ⟨hd, le_refl d⟩ (seqGo_bounds ds rem hrem hds')
    · simp only [seqGo, if_neg h]
      refine List.Forall₂.cons ⟨le_max_right _ _, max_le (by linarith) hd⟩
        (seqGo_bounds ds _ (le_max_right _ _) hds')

/-- The sequential loop sends a zero entry to a zero entry. -/
lemma seqGo_getD_zero : ∀ (ds : List ℚ) (rem : ℚ) (i : ℕ), 0 ≤ rem →
    ds.getD i 0 = 0 → (seqGo ds rem).getD i 0 = 0
  | [], _, i, _, _ => by simp [seqGo]
  | d :: ds, rem, 0, hrem, h0 => by
    have hd : d = 0 := by simpa using h0
    by_cases h : rem ≤ 0
    · simp [seqGo, h, hd]
    · simp [seqGo, if_neg h, hd]
      exact hrem
  | d :: ds, rem, i + 1, hrem, h0 => by
    have h0' : ds.getD i 0 = 0 := by simpa using h0
    by_cases h : rem ≤ 0
    · simp only [seqGo, if_pos h, List.getD_cons_succ]
      exact seqGo_getD_zero ds rem i hrem h0'
    · simp only [seqGo, if_neg h, List.getD_cons_succ]
      exact seqGo_getD_zero ds _ i (le_max_right _ _) h0'

/-- allocate_sequential with excess 0 is the identity (guard line 57). -/
lemma allocate_sequential_zero (ds : List ℚ) : allocate_sequential ds 0 = ds := by
  simp [allocate_sequential, seqGo_zero]

/-- allocate_sequential keeps the list length. -/
lemma allocate_sequential_length (ds : List ℚ) (e : ℚ) :
    (allocate_sequential ds e).length = ds.length :=
  seqGo_length ds (max e 0)

/-- Credited sum of allocate_sequential on non-negative inputs. -/
lemma allocate_sequential_sum (ds : List ℚ) (e : ℚ) (he : 0 ≤ e)
    (hds : ∀ d ∈ ds, 0 ≤ d) :
    (allocate_sequential ds e).sum = ds.sum - min e ds.sum := by
  rw [allocate_sequential, max_eq_left he]
  exact seqGo_sum ds e he hds

/-- Elementwise bounds for allocate_sequential on non-negative inputs. -/
lemma allocate_sequential_bounds (ds : List ℚ) (e : ℚ) (hds : ∀ d ∈ ds, 0 ≤ d) :
    List.Forall₂ (fun c d => 0 ≤ c ∧ c ≤ d) (allocate_sequential ds e) ds :=
  seqGo_bounds ds (max e 0) (le_max_right _ _) hds

/-- allocate_sequential sends a zero entry to a zero entry. -/
lemma allocate_sequential_getD_zero (ds : List ℚ) (e : ℚ) (i : ℕ)
    (h : ds.getD i 0 = 0) : (allocate_sequential ds e).getD i 0 = 0 :=
  seqGo_getD_zero ds (max e 0) i (le_max_right _ _) h

/-- Mapping a pointwise-bounded function over a list gives Forall₂ bounds. -/
lemma forall₂_map_self {P : ℚ → ℚ → Prop} {f : ℚ → ℚ} : ∀ (l : List ℚ),
    (∀ d ∈ l, P (f d) d) → List.Forall₂ P (l.map f) l
  | [], _ => List.Forall₂.nil
  | a :: l, h => List.Forall₂.cons (h a (List.mem_cons_self a l))
      (forall₂_map_self l (fun d hd => h d (List.mem_cons_of_mem a hd)))

/-- The left list of the bounds relation is elementwise non-negative. -/
lemma forall₂_left_nonneg : ∀ {l ds : List ℚ},
    List.Forall₂ (fun c d => 0 ≤ c ∧ c ≤ d) l ds → ∀ x ∈ l, 0 ≤ x := by
  intro l ds h
  induction h with
  | nil => intro x hx; cases hx
  | cons h₁ _ ih =>
    intro x hx
    rcases List.mem_cons.mp hx with h | h
    · rw [h]; exact h₁.1
    · exact ih x h

/-- A zero-preserving map sends a zero entry to a zero entry. -/
lemma map_getD_zero {f : ℚ → ℚ} (hf : f 0 = 0) : ∀ (l : List ℚ) (i : ℕ),
    l.getD i 0 = 0 → (l.map f).getD i 0 = 0
  | [], _, _ => by simp
  | a :: l, 0, h => by
    have ha : a = 0 := by simpa using h
    simp [ha, hf]
  | a :: l, i + 1, h => by
    have h' : l.getD i 0 = 0 := by simpa using h
    simp only [List.map_cons, List.getD_cons_succ]
    exact map_getD_zero hf l i h'

/-- Guard of allocate_proportional (line 70): zero sum or zero excess is a
no-op. -/
lemma allocate_proportional_guard (ds : List ℚ) (e : ℚ)
    (h : ds.sum ≤ 0 ∨ e ≤ 0) : allocate_proportional ds e = ds := by
  simp [allocate_proportional, if_pos h]

/-- Closed form of allocate_proportional past the guard. -/
lemma allocate_proportional_pos (ds : List ℚ) (e : ℚ)
    (h : ¬(ds.sum ≤ 0 ∨ e ≤ 0)) :
    allocate_proportional ds e =
      ds.map (fun d => max (d * max (1 - e / ds.sum) 0) 0) := by
  simp [allocate_proportional, if_neg h]

/-- allocate_proportional keeps the list length. -/
lemma allocate_proportional_length (ds : List ℚ) (e : ℚ) :
    (allocate_proportional ds e).length = ds.length := by
  by_cases h : ds.sum ≤ 0 ∨ e ≤ 0
  · rw [allocate_proportional_guard ds e h]
  · rw [allocate_proportional_pos ds e h, List.length_map]

/-- Credited sum of allocate_proportional on non-negative inputs. -/
lemma allocate_proportional_sum (ds : List ℚ) (e : ℚ) (he : 0 ≤ e)
    (hds : ∀ d ∈ ds, 0 ≤ d) :
    (allocate_proportional ds e).sum = ds.sum - min e ds.sum := by
  have hs : 0 ≤ ds.sum := List.sum_nonneg hds
  by_cases hg : ds.sum ≤ 0 ∨ e ≤ 0
  · rw [allocate_proportional_guard ds e hg]
    rcases hg with h | h
    · have hs0 : ds.sum = 0 := le_antisymm h hs
      rw [hs0, min_eq_right he]
      ring
    · have he0 : e = 0 := le_antisymm h he
      rw [he0, min_eq_left hs]
      ring
  · have hg' := hg
    push_neg at hg'
    obtain ⟨hS, hE⟩ := hg'
    rw [allocate_proportional_pos ds e hg]
    have hfac : 0 ≤ max (1 - e / ds.sum) 0 := le_max_right _ _
    rw [List.map_congr_left
      (fun d hd => max_eq_left (mul_nonneg (hds d hd) hfac))]
    rw [sum_map_mul]
    rcases le_total e ds.sum with hc | hc
    · rw [min_eq_left hc, max_eq_left (by
        have : e / ds.sum ≤ 1 := (div_le_one hS).mpr hc
        linarith)]
      field_simp
    · rw [min_eq_right hc, max_eq_right (by
        have : 1 ≤ e / ds.sum := (one_le_div hS).mpr hc
        linarith)]
      ring

/-- Elementwise bounds for allocate_proportional on non-negative inputs. -/
lemma allocate_proportional_bounds (ds : List ℚ) (e : ℚ)
    (hds : ∀ d ∈ ds, 0 ≤ d) :
    List.Forall₂ (fun c d => 0 ≤ c ∧ c ≤ d) (allocate_proportional ds e) ds := by
  by_cases hg : ds.sum ≤ 0 ∨ e ≤ 0
  · rw [allocate_proportional_guard ds e hg]
    exact List.forall₂_same.mpr (fun x hx => ⟨hds x hx, le_refl x⟩)
  · have hg' := hg
    push_neg at hg'
    obtain ⟨hS, hE⟩ := hg'
    rw [allocate_proportional_pos ds e hg]
    refine forall₂_map_self ds (fun d hd => ⟨le_max_right _ _, ?_⟩)
    have hd0 : 0 ≤ d := hds d hd
    have hfacle : max (1 - e / ds.sum) 0 ≤ 1 := by
      have : 0 < e / ds.sum := div_pos hE hS
      apply max_le <;> linarith
    have : d * max (1 - e / ds.sum) 0 ≤ d := by
      calc d * max (1 - e / ds.sum) 0 ≤ d * 1 :=
            mul_le_mul_of_nonneg_left hfacle hd0
        _ = d := mul_one d
    exact max_le this hd0

/-- allocate_proportional sends a zero entry to a zero entry. -/
lemma allocate_proportional_getD_zero (ds : List ℚ) (e : ℚ) (i : ℕ)
    (h : ds.getD i 0 = 0) : (allocate_proportional ds e).getD i 0 = 0 := by
  by_cases hg : ds.sum ≤ 0 ∨ e ≤ 0
  · rw [allocate_proportional_guard ds e hg]
    exact h
  · rw [allocate_proportional_pos ds e hg]
    exact map_getD_zero (by norm_num) ds i h

/-- Guard of allocate_weighted (line 84): zero weighted sum or zero excess is
a no-op. -/
lemma allocate_weighted_guard (ds ws : List ℚ) (e : ℚ)
    (h : ((ws.zip ds).map (fun x => x.1 * x.2)).sum ≤ 0 ∨ e ≤ 0) :
    allocate_weighted ds ws e = ds := by
  simp [allocate_weighted, if_pos h]

/-- Closed form of allocate_weighted past the guard. -/
lemma allocate_weighted_pos (ds ws : List ℚ) (e : ℚ)
    (h : ¬(((ws.zip ds).map (fun x => x.1 * x.2)).sum ≤ 0 ∨ e ≤ 0)) :
    allocate_weighted ds ws e =
      (ds.zip ((ws.zip ds).map (fun x => x.1 * x.2))).map
        (fun y => max
          (y.1 - e * (y.2 / ((ws.zip ds).map (fun x => x.1 * x.2)).sum)) 0) := by
  simp [allocate_weighted, if_neg h]

/-- Elementwise bounds for the clawback body of allocate_weighted. -/
lemma weighted_body_bounds (e S : ℚ) (he : 0 < e) (hS : 0 < S) :
    ∀ (ds ws : List ℚ), (∀ d ∈ ds, 0 ≤ d) → (∀ w ∈ ws, 0 ≤ w) →
      ds.length = ws.length →
      List.Forall₂ (fun c d => 0 ≤ c ∧ c ≤ d)
        ((ds.zip ((ws.zip ds).map (fun x => x.1 * x.2))).map
          (fun y => max (y.1 - e * (y.2 / S)) 0)) ds
  | [], [], _, _, _ => by simp
  | [], _ :: _, _, _, hlen => by simp at hlen
  | _ :: _, [], _, _, hlen => by simp at hlen
  | d :: ds, w :: ws, hd, hw, hlen => by
    simp only [List.zip_cons_cons, List.map_cons]
    have hd0 : 0 ≤ d := hd d (List.mem_cons_self d ds)
    have hw0 : 0 ≤ w := hw w (List.mem_cons_self w ws)
    refine List.Forall₂.cons ⟨le_max_right _ _, ?_⟩
      (weighted_body_bounds e S he hS ds ws
        (fun x hx => hd x (List.mem_cons_of_mem d hx))
        (fun x hx => hw x (List.mem_cons_of_mem w hx))
        (by simpa using hlen))
    have hcut : 0 ≤ e * (w * d / S) :=
      mul_nonneg he.le (div_nonneg (mul_nonneg hw0 hd0) hS.le)
    exact max_le (by linarith) hd0

/-- The clawback body of allocate_weighted sends a zero entry to zero. -/
lemma weighted_body_getD_zero (e S : ℚ) :
    ∀ (ds ws : List ℚ) (i : ℕ), ds.getD i 0 = 0 →
      ((ds.zip ((ws.zip ds).map (fun x => x.1 * x.2))).map
        (fun y => max (y.1 - e * (y.2 / S)) 0)).getD i 0 = 0
  | [], _, _, _ => by simp
  | _ :: _, [], _, _ => by simp
  | d :: ds, w :: ws, 0, h => by
    have hd : d = 0 := by simpa using h
    simp [hd]
  | d :: ds, w :: ws, i + 1, h => by
    have h' : ds.getD i 0 = 0 := by simpa using h
    simp only [List.zip_cons_cons, List.map_cons, List.getD_cons_succ]
    exact weighted_body_getD_zero e S ds ws i h'

/-- allocate_weighted keeps the length when given as many weights as deltas. -/
lemma allocate_weighted_length (ds ws : List ℚ) (e : ℚ)
    (hlen : ws.length = ds.length) :
    (allocate_weighted ds ws e).length = ds.length := by
  by_cases hg : ((ws.zip ds).map (fun x => x.1 * x.2)).sum ≤ 0 ∨ e ≤ 0
  · rw [allocate_weighted_guard ds ws e hg]
  · rw [allocate_weighted_pos ds ws e hg, List.length_map, List.length_zip,
      List.length_map, List.length_zip, hlen]
    simp

/-- Elementwise bounds for allocate_weighted on non-negative deltas and
weights. -/
lemma allocate_weighted_bounds (ds ws : List ℚ) (e : ℚ)
    (hds : ∀ d ∈ ds, 0 ≤ d) (hws : ∀ w ∈ ws, 0 ≤ w)
    (hlen : ds.length = ws.length) :
    List.Forall₂ (fun c d => 0 ≤ c ∧ c ≤ d) (allocate_weighted ds ws e) ds := by
  by_cases hg : ((ws.zip ds).map (fun x => x.1 * x.2)).sum ≤ 0 ∨ e ≤ 0
  · rw [allocate_weighted_guard ds ws e hg]
    exact List.forall₂_same.mpr (fun x hx => ⟨hds x hx, le_refl x⟩)
  · have hg' := hg
    push_neg at hg'
    obtain ⟨hS, hE⟩ := hg'
    rw [allocate_weighted_pos ds ws e hg]
    exact weighted_body_bounds e _ hE hS ds ws hds hws hlen

/-- allocate_weighted sends a zero entry to a zero entry. -/
lemma allocate_weighted_getD_zero (ds ws : List ℚ) (e : ℚ) (i : ℕ)
    (h : ds.getD i 0 = 0) : (allocate_weighted ds ws e).getD i 0 = 0 := by
  by_cases hg : ((ws.zip ds).map (fun x => x.1 * x.2)).sum ≤ 0 ∨ e ≤ 0
  · rw [allocate_weighted_guard ds ws e hg]
    exact h
  · rw [allocate_weighted_pos ds ws e hg]
    exact weighted_body_getD_zero e _ ds ws i h

/-- Weight products for a constant weight list. -/
lemma replicate_zip_mul : ∀ (l : List ℚ) (w : ℚ),
    ((List.replicate l.length w).zip l).map (fun x => x.1 * x.2) =
      l.map (fun d => w * d)
  | [], _ => rfl
  | a :: l, w => by
    simp only [List.length_cons, List.replicate_succ, List.zip_cons_cons,
      List.map_cons, replicate_zip_mul l w]

/-- Zipping a list with its own image is mapping the pairing. -/
lemma zip_map_self : ∀ (l : List ℚ) (g : ℚ → ℚ),
    l.zip (l.map g) = l.map (fun d => (d, g d))
  | [], _ => rfl
  | a :: l, g => by
    simp only [List.map_cons, List.zip_cons_cons, zip_map_self l g]

/-- Multiplying from the left scales a list sum. -/
lemma sum_map_mul_left : ∀ (l : List ℚ) (c : ℚ),
    (l.map (fun d => c * d)).sum = c * l.sum
  | [], c => by simp
  | a :: l, c => by
    simp [sum_map_mul_left l c]
    ring

/-- With one common positive weight the weighted clawback coincides with the
proportional one. -/
lemma weighted_replicate_eq_proportional (ds : List ℚ) (w e : ℚ) (hw : 0 < w)
    (hds : ∀ d ∈ ds, 0 ≤ d) :
    allocate_weighted ds (List.replicate ds.length w) e =
      allocate_proportional ds e := by
  have hwd : ((List.replicate ds.length w).zip ds).map (fun x => x.1 * x.2) =
      ds.map (fun d => w * d) := replicate_zip_mul ds w
  have hsum : (((List.replicate ds.length w).zip ds).map
      (fun x => x.1 * x.2)).sum = w * ds.sum := by
    rw [hwd, sum_map_mul_left]
  by_cases hg : ds.sum ≤ 0 ∨ e ≤ 0
  · rw [allocate_proportional_guard ds e hg]
    refine allocate_weighted_guard ds _ e ?_
    rw [hsum]
    rcases hg with h | h
    · exact Or.inl (mul_nonpos_of_nonneg_of_nonpos hw.le h)
    · exact Or.inr h
  · have hg' := hg
    push_neg at hg'
    obtain ⟨hS, hE⟩ := hg'
    have hgw : ¬((((List.replicate ds.length w).zip ds).map
        (fun x => x.1 * x.2)).sum ≤ 0 ∨ e ≤ 0) := by
      rw [hsum]
      push_neg
      exact ⟨mul_pos hw hS, hE⟩
    rw [allocate_weighted_pos ds _ e hgw, allocate_proportional_pos ds e hg,
      hsum, hwd, zip_map_self, List.map_map]
    refine List.map_congr_left (fun d hd => ?_)
    have hd0 : 0 ≤ d := hds d hd
    simp only [Function.comp]
    have hmul : w * d / (w * ds.sum) = d / ds.sum :=
      mul_div_mul_left d ds.sum (ne_of_gt hw)
    rw [hmul]
    rcases le_or_lt e ds.sum with hc | hc
    · rw [show max (1 - e / ds.sum) 0 = 1 - e / ds.sum from max_eq_left (by
        have : e / ds.sum ≤ 1 := (div_le_one hS).mpr hc
        linarith)]
      congr 1
      field_simp
      ring
    · rw [show max (1 - e / ds.sum) 0 = 0 from max_eq_right (by
        have : 1 ≤ e / ds.sum := (one_le_div hS).mpr hc.le
        linarith), mul_zero, max_self]
      have h1 : ds.sum * (d / ds.sum) = d := by field_simp
      have h2 : 0 ≤ (e - ds.sum) * (d / ds.sum) :=
        mul_nonneg (by linarith) (div_nonneg hd0 hS.le)
      have hge : d ≤ e * (d / ds.sum) := by nlinarith [h1, h2]
      exact max_eq_right (by linarith)

/-- Indexing a zipped map within bounds. -/
lemma zipmap_getD (f : ℚ × ℚ → ℚ) : ∀ (a b : List ℚ) (i : ℕ),
    i < a.length → i < b.length →
    ((a.zip b).map f).getD i 0 = f (a.getD i 0, b.getD i 0)
  | [], _, i, h, _ => absurd h (by simp)
  | _ :: _, [], i, _, h => absurd h (by simp)
  | a :: as, b :: bs, 0, _, _ => by simp
  | a :: as, b :: bs, i + 1, h1, h2 => by
    simp only [List.zip_cons_cons, List.map_cons, List.getD_cons_succ]
    exact zipmap_getD f as bs i (by simpa using h1) (by simpa using h2)

/-- Sum of a linear function over a zip of equal-length lists. -/
lemma zipmap_linear_sum (c k : ℚ) : ∀ (a b : List ℚ), a.length = b.length →
    ((a.zip b).map (fun y => y.1 * c + y.2 * k)).sum = a.sum * c + b.sum * k
  | [], [], _ => by simp
  | [], _ :: _, h => by simp at h
  | _ :: _, [], h => by simp at h
  | a :: as, b :: bs, h => by
    simp only [List.zip_cons_cons, List.map_cons, List.sum_cons]
    rw [zipmap_linear_sum c k as bs (by simpa using h)]
    ring

/-- The active recovery deltas are non-negative when the configured recovery
deltas are. -/
lemma dR_active_nonneg (p : Params) (h : nonnegR p) : ∀ d ∈ dR_active p, 0 ≤ d := by
  obtain ⟨h1, h2, h3, h4⟩ := h
  intro d hd
  simp [dR_active, applySwitches, dR_list, active_mask] at hd
  rcases hd with rfl | rfl | rfl | rfl <;>
    split_ifs <;> first | assumption | exact le_refl 0

/-- The active acid deltas are non-negative when the configured acid deltas
are. -/
lemma dA_active_nonneg (p : Params) (h : nonnegA p) : ∀ d ∈ dA_active p, 0 ≤ d := by
  obtain ⟨h1, h2, h3, h4⟩ := h
  intro d hd
  simp [dA_active, applySwitches, dA_list, active_mask] at hd
  rcases hd with rfl | rfl | rfl | rfl <;>
    split_ifs <;> first | assumption | exact le_refl 0

/-- There are always four active-delta entries. -/
lemma dR_active_length (p : Params) : (dR_active p).length = 4 := by
  simp [dR_active, applySwitches, dR_list, active_mask]

/-- There are always four active acid entries. -/
lemma dA_active_length (p : Params) : (dA_active p).length = 4 := by
  simp [dA_active, applySwitches, dA_list, active_mask]

/-- There are always four weights. -/
lemma weights_list_length (p : Params) : (weights_list p).length = 4 := by
  simp [weights_list]

/-- There are always four credited recovery entries. -/
lemma dR_accredited_length (p : Params) : (dR_accredited p).length = 4 := by
  cases hru : p.rule
  · simp only [dR_accredited, hru]
    rw [allocate_sequential_length, dR_active_length]
  · simp only [dR_accredited, hru]
    rw [allocate_proportional_length, dR_active_length]
  · simp only [dR_accredited, hru]
    rw [allocate_weighted_length _ _ _
      (by rw [weights_list_length, dR_active_length]), dR_active_length]

/-- There are always four credited acid entries. -/
lemma dA_accredited_length (p : Params) : (dA_accredited p).length = 4 := by
  cases hru : p.rule
  · simp only [dA_accredited, hru]
    rw [allocate_sequential_length, dA_active_length]
  · simp only [dA_accredited, hru]
    rw [allocate_proportional_length, dA_active_length]
  · simp only [dA_accredited, hru]
    rw [allocate_weighted_length _ _ _
      (by rw [weights_list_length, dA_active_length]), dA_active_length]

/-- Credited recovery sum under the Sequential or Proportional rule. -/
lemma dR_accredited_sum (p : Params) (h : nonnegR p)
    (hr : p.rule ≠ Rule.ponderada) :
    (dR_accredited p).sum =
      (dR_active p).sum - min (excess_R p) (dR_active p).sum := by
  have hnn := dR_active_nonneg p h
  have he : (0:ℚ) ≤ excess_R p := le_max_right _ _
  cases hru : p.rule
  · simp only [dR_accredited, hru]
    exact allocate_sequential_sum _ _ he hnn
  · simp only [dR_accredited, hru]
    exact allocate_proportional_sum _ _ he hnn
  · exact absurd hru hr

/-- Credited acid sum under the Sequential or Proportional rule. -/
lemma dA_accredited_sum (p : Params) (h : nonnegA p)
    (hr : p.rule ≠ Rule.ponderada) :
    (dA_accredited p).sum =
      (dA_active p).sum - min (excess_A p) (dA_active p).sum := by
  have hnn := dA_active_nonneg p h
  have he : (0:ℚ) ≤ excess_A p := le_max_right _ _
  cases hru : p.rule
  · simp only [dA_accredited, hru]
    exact allocate_sequential_sum _ _ he hnn
  · simp only [dA_accredited, hru]
    exact allocate_proportional_sum _ _ he hnn
  · exact absurd hru hr

/-- One step of allocate_sequential: the head is clawed back by
min(excess, contribution) and the tail continues with the reduced excess. -/
lemma allocate_sequential_cons (d : ℚ) (ds : List ℚ) (e : ℚ) (he : 0 ≤ e)
    (hd : 0 ≤ d) :
    allocate_sequential (d :: ds) e =
      (d - min e d) :: allocate_sequential ds (e - min e d) := by
  by_cases h0 : e ≤ 0
  · have he0 : e = 0 := le_antisymm h0 he
    subst he0
    rw [min_eq_left hd, sub_zero, sub_zero, allocate_sequential_zero,
      allocate_sequential_zero]
  · have hstep : seqGo (d :: ds) e = max (d - e) 0 :: seqGo ds (max (e - d) 0) := by
      simp [seqGo, if_neg h0]
    rw [allocate_sequential, max_eq_left he, hstep, allocate_sequential]
    rcases le_total e d with hc | hc
    · rw [min_eq_left hc, max_eq_left (by linarith : (0:ℚ) ≤ d - e),
        show e - e = (0:ℚ) from sub_self e,
        show max (e - d) 0 = 0 from max_eq_right (by linarith),
        show max (0:ℚ) 0 = 0 from max_self 0]
    · rw [min_eq_right hc,
        show max (d - e) 0 = 0 from max_eq_right (by linarith),
        show d - d = (0:ℚ) from sub_self d]

/-- If the excess fits inside the first contribution, only the first credited
value changes. -/
lemma allocate_sequential_small (d1 d2 d3 d4 e : ℚ) (he : 0 ≤ e)
    (hle : e ≤ d1) :
    allocate_sequential [d1, d2, d3, d4] e = [d1 - e, d2, d3, d4] := by
  have hd1 : 0 ≤ d1 := le_trans he hle
  rw [allocate_sequential_cons d1 [d2, d3, d4] e he hd1, min_eq_left hle,
    sub_self, allocate_sequential_zero]

/-- C1 counterexample: with baseline recovery 80 above the ceiling 75 (a
configuration the spec declares valid) the pipeline returns final recovery
80, strictly above the ceiling, refuting the claim that the final recovery
never exceeds the ceiling. -/
theorem C1_counterexample : ceilParams.Rmax_pct < R_final ceilParams := by
  norm_num [R_final, dR_accredited, ceilParams, allocate_sequential, seqGo,
    dR_active, applySwitches, dR_list, active_mask, excess_R, R_raw, max_def]

/-- C1 (amended): under the Sequential or Proportional rule, with
non-negative deltas, the final recovery never exceeds the larger of ceiling
and baseline, and the final acid never falls below the smaller of floor and
baseline; in particular the original claim holds whenever the baseline
respects the limit. -/
theorem C1_amended_clamping (p : Params) (hR : nonnegR p) (hA : nonnegA p)
    (hr : p.rule ≠ Rule.ponderada) :
    R_final p ≤ max p.Rmax_pct p.R0_pct ∧
    min p.Amin_kgpt p.A0_kgpt ≤ A_final p := by
  have hsR : 0 ≤ (dR_active p).sum := List.sum_nonneg (dR_active_nonneg p hR)
  have hsA : 0 ≤ (dA_active p).sum := List.sum_nonneg (dA_active_nonneg p hA)
  constructor
  · rw [R_final, dR_accredited_sum p hR hr, excess_R, R_raw]
    rcases le_total (p.R0_pct + (dR_active p).sum - p.Rmax_pct) 0 with hc | hc
    · rw [max_eq_right hc, min_eq_left hsR]
      have := le_max_left p.Rmax_pct p.R0_pct
      linarith
    · rw [max_eq_left hc]
      rcases le_total (p.R0_pct + (dR_active p).sum - p.Rmax_pct)
          ((dR_active p).sum) with hm | hm
      · rw [min_eq_left hm]
        have := le_max_left p.Rmax_pct p.R0_pct
        linarith
      · rw [min_eq_right hm]
        have := le_max_right p.Rmax_pct p.R0_pct
        linarith
  · rw [A_final, dA_accredited_sum p hA hr, excess_A, A_raw]
    rcases le_total (p.Amin_kgpt - (p.A0_kgpt - (dA_active p).sum)) 0 with hc | hc
    · rw [max_eq_right hc, min_eq_left hsA]
      have := min_le_left p.Amin_kgpt p.A0_kgpt
      linarith
    · rw [max_eq_left hc]
      rcases le_total (p.Amin_kgpt - (p.A0_kgpt - (dA_active p).sum))
          ((dA_active p).sum) with hm | hm
      · rw [min_eq_left hm]
        have := min_le_left p.Amin_kgpt p.A0_kgpt
        linarith
      · rw [min_eq_right hm]
        have := min_le_right p.Amin_kgpt p.A0_kgpt
        linarith

/-- Concrete instance of the amended C1 bound at the sidebar defaults. -/
theorem C1_amended_clamping_witness :
    R_final scenarioParams ≤ max scenarioParams.Rmax_pct scenarioParams.R0_pct ∧
    min scenarioParams.Amin_kgpt scenarioParams.A0_kgpt ≤ A_final scenarioParams :=
  C1_amended_clamping scenarioParams (by norm_num [nonnegR, scenarioParams])
    (by norm_num [nonnegA, scenarioParams]) (by decide)

/-- C2 counterexample: for the Weighted policy with deltas [1,3,0,0],
weights [5,1,1,1] and excess 2 (below the raw sum 4), the credited values
sum to 9/4, not to raw sum minus excess: conservation fails because the
clamp of one clawback at 0 is not redistributed. -/
theorem C2_counterexample :
    (allocate_weighted [1, 3, 0, 0] [5, 1, 1, 1] 2).sum ≠
      [(1:ℚ), 3, 0, 0].sum - 2 := by
  norm_num [allocate_weighted, max_def]

/-- C2 (amended): for the Sequential and Proportional policies, on
non-negative raw contributions, the credited contributions sum to raw sum
minus excess whenever the excess does not exceed the raw sum, and are all 0
whenever it does; consequently, under those two rules, whenever the raw
recovery breaches a ceiling at or above the baseline the final recovery
equals the ceiling exactly. The Weighted policy does not satisfy this. -/
theorem C2_amended_conservation :
    (∀ (ds : List ℚ) (e : ℚ), 0 ≤ e → (∀ d ∈ ds, 0 ≤ d) → e ≤ ds.sum →
      (allocate_sequential ds e).sum = ds.sum - e ∧
      (allocate_proportional ds e).sum = ds.sum - e) ∧
    (∀ (ds : List ℚ) (e : ℚ), (∀ d ∈ ds, 0 ≤ d) → ds.sum < e →
      (∀ x ∈ allocate_sequential ds e, x = 0) ∧
      (∀ x ∈ allocate_proportional ds e, x = 0)) ∧
    (∀ p : Params, nonnegR p → p.rule ≠ Rule.ponderada →
      p.R0_pct ≤ p.Rmax_pct → p.Rmax_pct < R_raw p →
      R_final p = p.Rmax_pct) := by
  refine ⟨?_, ?_, ?_⟩
  · intro ds e he hds hle
    constructor
    · rw [allocate_sequential_sum ds e he hds, min_eq_left hle]
    · rw [allocate_proportional_sum ds e he hds, min_eq_left hle]
  · intro ds e hds hlt
    have hs : 0 ≤ ds.sum := List.sum_nonneg hds
    have he : 0 ≤ e := le_trans hs hlt.le
    constructor
    · refine sum_zero_all_zero _
        (forall₂_left_nonneg (allocate_sequential_bounds ds e hds)) ?_
      rw [allocate_sequential_sum ds e he hds, min_eq_right hlt.le, sub_self]
    · refine sum_zero_all_zero _
        (forall₂_left_nonneg (allocate_proportional_bounds ds e hds)) ?_
      rw [allocate_proportional_sum ds e he hds, min_eq_right hlt.le, sub_self]
  · intro p hR hrule hbase hbreach
    rw [R_raw] at hbreach
    rw [R_final, dR_accredited_sum p hR hrule, excess_R, R_raw,
      max_eq_left (by linarith), min_eq_left (by linarith)]
    ring

/-- Concrete instance of the amended C2 conservation law. -/
theorem C2_amended_conservation_witness :
    (allocate_sequential [(2:ℚ), 1] 1).sum = [(2:ℚ), 1].sum - 1 ∧
    (allocate_proportional [(2:ℚ), 1] 1).sum = [(2:ℚ), 1].sum - 1 :=
  C2_amended_conservation.1 [2, 1] 1 (by norm_num) (by norm_num) (by norm_num)

/-- C3: the Sequential policy claws back min(remaining excess, contribution)
from each component in order, credits the difference, reduces the remaining
excess by the clawback, and leaves components after exhaustion at their raw
values; if the excess fits inside the first contribution only the first
credited value changes. -/
theorem C3_sequential_mechanism :
    (∀ (d : ℚ) (ds : List ℚ) (e : ℚ), 0 ≤ e → 0 ≤ d →
      allocate_sequential (d :: ds) e =
        (d - min e d) :: allocate_sequential ds (e - min e d)) ∧
    (∀ d1 d2 d3 d4 e : ℚ, 0 ≤ e → e ≤ d1 →
      allocate_sequential [d1, d2, d3, d4] e = [d1 - e, d2, d3, d4]) :=
  ⟨allocate_sequential_cons, allocate_sequential_small⟩

/-- Concrete instance of the sequential clawback mechanism. -/
theorem C3_sequential_mechanism_witness :
    allocate_sequential [(1:ℚ), 2] 1 =
      ((1:ℚ) - min 1 1) :: allocate_sequential [2] (1 - min 1 1) ∧
    allocate_sequential [(5:ℚ), 6, 7, 8] 2 = [5 - 2, 6, 7, 8] :=
  ⟨C3_sequential_mechanism.1 1 [2] 1 (by norm_num) (by norm_num),
   C3_sequential_mechanism.2 5 6 7 8 2 (by norm_num) (by norm_num)⟩

/-- C4 counterexample: on the breach-scenario deltas [0.5, 1.2, 0.7, 3.0]
with excess 2.4, the code does not credit C1=0.5, C2=1.2, C3=0, C4=3.0 as
the claim states. -/
theorem C4_counterexample :
    allocate_sequential [1/2, 6/5, 7/10, 3] (12/5) ≠ [1/2, 6/5, 0, 3] := by
  norm_num [allocate_sequential, seqGo, max_def]

/-- C4 (amended): the sequential clawback is absorbed by the earliest
components, not the latest: for the breach scenario (ceiling 63) the code
credits C1=0, C2=0, C3=0, C4=3.0, and the final recovery equals the
ceiling 63 exactly. -/
theorem C4_amended_breach :
    dR_accredited breachParams = [0, 0, 0, 3] ∧ R_final breachParams = 63 := by
  constructor <;>
    norm_num [R_final, dR_accredited, breachParams, allocate_sequential, seqGo,
      dR_active, applySwitches, dR_list, active_mask, excess_R, R_raw, max_def]

/-- C5: the spec scenario (defaults, Proportional rule) yields final recovery
65.4, final acid 28.5, additional copper 2700 t/a, acid saved 65000 t/a, and
total annual benefit 32,100,000. -/
theorem C5_scenario :
    R_final scenarioParams = 327/5 ∧ A_final scenarioParams = 57/2 ∧
    dCu_tpy scenarioParams = 2700 ∧ acid_saved_tpy scenarioParams = 65000 ∧
    B_total scenarioParams = 32100000 := by
  refine ⟨?_, ?_, ?_, ?_, ?_⟩ <;>
    norm_num [B_total, B_Cu, B_Acid, dCu_tpy, acid_saved_tpy, Cu_in_tpy, T,
      dR_total_pts, dA_total_kgpt, R_final, A_final, dR_accredited,
      dA_accredited, scenarioParams, allocate_proportional, dR_active,
      dA_active, applySwitches, dR_list, dA_list, active_mask, excess_R,
      excess_A, R_raw, A_raw, max_def]

/-- C6 counterexample: with all four weights equal to the non-negative value
0, the Weighted policy hits its zero guard and returns the raw deltas, while
the Proportional policy scales them by 1/2, so the two differ. -/
theorem C6_counterexample :
    allocate_weighted [1, 2, 3, 4] [0, 0, 0, 0] 5 ≠
      allocate_proportional [(1:ℚ), 2, 3, 4] 5 := by
  norm_num [allocate_weighted, allocate_proportional, max_def]

/-- C6 (amended): for every list of non-negative deltas and every excess,
the Weighted policy with all weights equal to a common positive value
produces exactly the credited output of the Proportional policy. -/
theorem C6_amended_weighted_degeneracy (ds : List ℚ) (w e : ℚ) (hw : 0 < w)
    (hds : ∀ d ∈ ds, 0 ≤ d) :
    allocate_weighted ds (List.replicate ds.length w) e =
      allocate_proportional ds e :=
  weighted_replicate_eq_proportional ds w e hw hds

/-- Concrete instance of the weighted degeneracy. -/
theorem C6_amended_weighted_degeneracy_witness :
    allocate_weighted [(1:ℚ), 3] (List.replicate [(1:ℚ), 3].length 2) 5 =
      allocate_proportional [(1:ℚ), 3] 5 :=
  C6_amended_weighted_degeneracy [1, 3] 2 5 (by norm_num) (by norm_num)

/-- C7: all three policies are no-ops at excess 0; the Proportional policy
returns the raw deltas when their sum is 0 and the Weighted policy returns
them when all weight-delta products are 0, so the guarded divisions are
never reached in those cases. -/
theorem C7_guarded_totality :
    (∀ ds : List ℚ, allocate_sequential ds 0 = ds) ∧
    (∀ ds : List ℚ, allocate_proportional ds 0 = ds) ∧
    (∀ (ds ws : List ℚ), allocate_weighted ds ws 0 = ds) ∧
    (∀ (ds : List ℚ) (e : ℚ), ds.sum = 0 → allocate_proportional ds e = ds) ∧
    (∀ (ds ws : List ℚ) (e : ℚ),
      (∀ x ∈ (ws.zip ds).map (fun y => y.1 * y.2), x = 0) →
      allocate_weighted ds ws e = ds) := by
  refine ⟨allocate_sequential_zero, ?_, ?_, ?_, ?_⟩
  · intro ds
    exact allocate_proportional_guard ds 0 (Or.inr le_rfl)
  · intro ds ws
    exact allocate_weighted_guard ds ws 0 (Or.inr le_rfl)
  · intro ds e h
    exact allocate_proportional_guard ds e (Or.inl (le_of_eq h))
  · intro ds ws e h
    exact allocate_weighted_guard ds ws e (Or.inl (le_of_eq (List.sum_eq_zero h)))

/-- Concrete instances of the guard behaviour. -/
theorem C7_guarded_totality_witness :
    allocate_proportional [(0:ℚ), 0] 7 = [0, 0] ∧
    allocate_weighted [(3:ℚ), 4] [0, 0] 7 = [3, 4] :=
  ⟨C7_guarded_totality.2.2.2.1 [0, 0] 7 (by norm_num),
   C7_guarded_totality.2.2.2.2 [3, 4] [0, 0] 7 (by norm_num)⟩

/-- C8: for every parameter set and every allocation rule, a component whose
activation flag is off has raw recovery and acid contributions 0, credited
recovery and acid contributions 0, and per-component benefit 0, regardless
of its configured delta coefficients. -/
theorem C8_inactive_zero (p : Params) (i : Fin 4)
    (h : (active_mask p).getD i false = false) :
    (dR_active p).getD i 0 = 0 ∧ (dA_active p).getD i 0 = 0 ∧
    (dR_accredited p).getD i 0 = 0 ∧ (dA_accredited p).getD i 0 = 0 ∧
    (B_by p).getD i 0 = 0 := by
  have hR : (dR_active p).getD i 0 = 0 := by
    fin_cases i <;> simp_all [dR_active, applySwitches, dR_list, active_mask]
  have hA : (dA_active p).getD i 0 = 0 := by
    fin_cases i <;> simp_all [dA_active, applySwitches, dA_list, active_mask]
  have hRacc : (dR_accredited p).getD i 0 = 0 := by
    cases hru : p.rule
    · simp only [dR_accredited, hru]
      exact allocate_sequential_getD_zero _ _ _ hR
    · simp only [dR_accredited, hru]
      exact allocate_proportional_getD_zero _ _ _ hR
    · simp only [dR_accredited, hru]
      exact allocate_weighted_getD_zero _ _ _ _ hR
  have hAacc : (dA_accredited p).getD i 0 = 0 := by
    cases hru : p.rule
    · simp only [dA_accredited, hru]
      exact allocate_sequential_getD_zero _ _ _ hA
    · simp only [dA_accredited, hru]
      exact allocate_proportional_getD_zero _ _ _ hA
    · simp only [dA_accredited, hru]
      exact allocate_weighted_getD_zero _ _ _ _ hA
  have hB : (B_by p).getD i 0 = 0 := by
    rw [B_by, zipmap_getD _ _ _ i
      (by rw [dR_accredited_length]; exact i.isLt)
      (by rw [dA_accredited_length]; exact i.isLt), hRacc, hAacc]
    norm_num [B_comp]
  exact ⟨hR, hA, hRacc, hAacc, hB⟩

/-- Concrete instance: with component C3 switched off every C3 figure is 0. -/
theorem C8_inactive_zero_witness :
    (dR_active inactiveParams).getD 2 0 = 0 ∧
    (dA_active inactiveParams).getD 2 0 = 0 ∧
    (dR_accredited inactiveParams).getD 2 0 = 0 ∧
    (dA_accredited inactiveParams).getD 2 0 = 0 ∧
    (B_by inactiveParams).getD 2 0 = 0 :=
  C8_inactive_zero inactiveParams 2 (by rfl)

/-- C9: the per-component benefits computed from the credited deltas by the
same linear formula as the aggregate sum exactly to the aggregate annual
benefit, for every parameter set and every allocation rule. -/
theorem C9_benefit_additivity (p : Params) : (B_by p).sum = B_total p := by
  have hlen : (dR_accredited p).length = (dA_accredited p).length := by
    rw [dR_accredited_length, dA_accredited_length]
  have hcongr : ((dR_accredited p).zip (dA_accredited p)).map
      (fun x => B_comp p x.1 x.2) =
      ((dR_accredited p).zip (dA_accredited p)).map
      (fun y => y.1 * (Cu_in_tpy p * p.P_Cu / 100) +
        y.2 * (T p * p.P_Acid / 1000)) :=
    List.map_congr_left (fun x _ => by rw [B_comp]; ring)
  rw [B_by, hcongr, zipmap_linear_sum _ _ _ _ hlen, B_total, B_Cu, B_Acid,
    dCu_tpy, acid_saved_tpy, dR_total_pts, dA_total_kgpt, R_final, A_final]
  ring

/-- C10: for each policy, on non-negative raw contributions (and, for
Weighted, non-negative weights, one per delta), every credited contribution
lies between 0 and its raw contribution, for every excess. -/
theorem C10_credited_bounds (ds : List ℚ) (e : ℚ) (hds : ∀ d ∈ ds, 0 ≤ d) :
    List.Forall₂ (fun c d => 0 ≤ c ∧ c ≤ d) (allocate_sequential ds e) ds ∧
    List.Forall₂ (fun c d => 0 ≤ c ∧ c ≤ d) (allocate_proportional ds e) ds ∧
    (∀ ws : List ℚ, (∀ w ∈ ws, 0 ≤ w) → ds.length = ws.length →
      List.Forall₂ (fun c d => 0 ≤ c ∧ c ≤ d) (allocate_weighted ds ws e) ds) :=
  ⟨allocate_sequential_bounds ds e hds, allocate_proportional_bounds ds e hds,
   fun ws hws hlen => allocate_weighted_bounds ds ws e hds hws hlen⟩

/-- Concrete instance of the credited bounds. -/
theorem C10_credited_bounds_witness :
    List.Forall₂ (fun c d => 0 ≤ c ∧ c ≤ d)
      (allocate_sequential [(1:ℚ), 2] 5) [(1:ℚ), 2] ∧
    List.Forall₂ (fun c d => 0 ≤ c ∧ c ≤ d)
      (allocate_proportional [(1:ℚ), 2] 5) [(1:ℚ), 2] ∧
    List.Forall₂ (fun c d => 0 ≤ c ∧ c ≤ d)
      (allocate_weighted [(1:ℚ), 2] [(3:ℚ), 1] 5) [(1:ℚ), 2] :=
  ⟨(C10_credited_bounds [1, 2] 5 (by norm_num)).1,
   (C10_credited_bounds [1, 2] 5 (by norm_num)).2.1,
   (C10_credited_bounds [1, 2] 5 (by norm_num)).2.2 [3, 1] (by norm_num)
     (by norm_num)⟩
